import Mathlib

/-!
Verification development for `nengo/utils/ipython.py`.

Text is modelled as `List Char`; binary payloads as `List Nat`.  Python
string primitives (`str.find`, `str.replace`, `str.split`, `str.startswith`,
the `in` operator, `os.path.join`) are embedded as executable functions on
`List Char`, and each function of the module is translated directly from its
source.  Python exceptions are modelled with `Except PyError`.
-/

/-- Python errors that the modelled code can raise. -/
inductive PyError where
  | importError
  | nameError
  | indexError
deriving DecidableEq

/-- Boolean prefix test: `prefixB pat s` is `true` iff `pat` is a prefix of
`s`.  Mirrors Python `s.startswith(pat)`. -/
def prefixB : List Char → List Char → Bool
  | [], _ => true
  | _ :: _, [] => false
  | a :: as, b :: bs => (a == b) && prefixB as bs

/-- `findSub pat s` is the index of the leftmost occurrence of `pat` in `s`,
or `none`.  Mirrors Python `s.find(pat)` (which returns `-1` for absence and
`0` when `pat` is empty). -/
def findSub (pat : List Char) : List Char → Option Nat
  | [] => if pat.isEmpty then some 0 else none
  | c :: cs =>
    if prefixB pat (c :: cs) then some 0
    else (findSub pat cs).map (fun i => i + 1)

/-- Boolean substring test, mirroring the Python `in` operator on strings. -/
def occursB (pat s : List Char) : Bool := (findSub pat s).isSome

/-- Worker for `replaceAll`: when the skip counter is `k + 1` the next `k + 1`
characters belong to a pattern occurrence that has already been replaced and
are dropped. -/
def raMode (pat repl : List Char) : Nat → List Char → List Char
  | _ + 1, [] => []
  | k + 1, _ :: cs => raMode pat repl k cs
  | 0, [] => if pat.isEmpty then repl else []
  | 0, c :: cs =>
    if pat.isEmpty then repl ++ c :: raMode pat repl 0 cs
    else if prefixB pat (c :: cs) then repl ++ raMode pat repl (pat.length - 1) cs
    else c :: raMode pat repl 0 cs

/-- `replaceAll pat repl s` mirrors Python `s.replace(pat, repl)`:
non-overlapping occurrences are replaced left to right, and scanning resumes
after each replacement. -/
def replaceAll (pat repl s : List Char) : List Char := raMode pat repl 0 s

/-- Python `s.split(sep, 1)`: `none` when `sep` does not occur, otherwise the
parts before and after the first occurrence. -/
def splitOnce (sep s : List Char) : Option (List Char × List Char) :=
  match findSub sep s with
  | none => none
  | some i => some (s.take i, s.drop (i + sep.length))

/-- Python `s.split(sep, 1)[0]`: never raises (a one-element split yields the
whole string). -/
def part0 (sep s : List Char) : List Char :=
  match splitOnce sep s with
  | none => s
  | some (before, _) => before

/-- Python `s.split(sep, 1)[1]`: raises `IndexError` when `sep` does not
occur (the split has a single element). -/
def part1 (sep s : List Char) : Except PyError (List Char) :=
  match splitOnce sep s with
  | none => Except.error PyError.indexError
  | some (_, after) => Except.ok after

/-- Python `s.split(sep)` for `sep = "\n"`: full split on newlines. -/
def splitNl : List Char → List (List Char)
  | [] => [[]]
  | c :: cs =>
    if c = '\n' then [] :: splitNl cs
    else
      match splitNl cs with
      | [] => [[c]]
      | l :: ls => (c :: l) :: ls

/-- POSIX `os.path.join` for two components. -/
def osPathJoin (a b : List Char) : List Char :=
  if prefixB [( '/' )] b then b
  else if a.isEmpty then b
  else if a.getLast? = some '/' then a ++ b
  else a ++ '/' :: b

/-- `findCharFrom c s i` mirrors Python `s.find(c, i)`: the index of the
first occurrence of the character `c` at position `i` or later, or `none`. -/
def findCharFrom (c : Char) (s : List Char) (i : Nat) : Option Nat :=
  (findSub [c] (s.drop i)).map (fun j => j + i)

/-- The literal searched for by `export_py`'s stripping loop. -/
def gip : List Char := ("get_ipython()").toList

/-- The literal whose presence triggers the plot-display append. -/
def plt : List Char := ("plt").toList

/-- The trailing plot-display statement appended by `export_py`. -/
def pltShow : List Char := ("\nplt.show()\n").toList

/-- One iteration of `export_py`'s `while` loop:
`ind0 = body.find(pat); ind1 = body.find('\n', ind0);
body = body[:ind0] + body[(ind1 + 1):]`.
When no newline follows, Python's `find` returns `-1` and `body[(ind1+1):]`
is `body[0:]`, i.e. the whole text. -/
def stripStep (pat : List Char) (body : List Char) : List Char :=
  match findSub pat body with
  | none => body
  | some i0 =>
    match findCharFrom '\n' body i0 with
    | none => body.take i0 ++ body
    | some i1 => body.take i0 ++ body.drop (i1 + 1)

/-- `export_py`'s `while pat in body` loop with explicit fuel; `none` means
the fuel was exhausted before the loop exited. -/
def stripFuel (pat : List Char) : Nat → List Char → Option (List Char)
  | 0, body => if findSub pat body = none then some body else none
  | n + 1, body =>
    if findSub pat body = none then some body
    else stripFuel pat n (stripStep pat body)

/-- Result of `export_py`: the returned script text and the optional
destination write (path, contents). -/
structure PyResult where
  body : List Char
  destWrite : Option (List Char × List Char)
deriving DecidableEq

/-- `export_py`, translated from the source.  Its input is the text the
external script exporter produced (`exporter.from_notebook_node(nb)[0]`).
A terminating run of the stripping loop removes at least one character per
iteration, so fuel `body.length + 1` is reached exactly by the terminating
runs; `none` models the loop running forever. -/
def export_py (body : List Char) (dest_path : Option (List Char)) :
    Option PyResult :=
  match stripFuel gip (body.length + 1) body with
  | none => none
  | some b =>
    let b := if occursB plt b then b ++ pltShow else b
    some ⟨b, dest_path.map (fun p => (p, b))⟩

/-- The import environment the probes run in: whether `import IPython`
succeeds (and its `version_info` tuple when it does), and whether the widget
and traitlets packages selected by the version branch are importable. -/
structure PyEnv where
  ipythonVersion : Option (List Nat)
  oldWidgetsImportable : Bool
  oldTraitletsImportable : Bool
  newWidgetsImportable : Bool
  newTraitletsImportable : Bool
deriving DecidableEq

/-- Python tuple `<` (lexicographic, a strict prefix is smaller). -/
def tupleLt : List Nat → List Nat → Bool
  | [], [] => false
  | [], _ :: _ => true
  | _ :: _, [] => false
  | a :: as, b :: bs => if a < b then true else if b < a then false else tupleLt as bs

/-- Python tuple `>=`. -/
def tupleGe (a b : List Nat) : Bool := !(tupleLt a b)

/-- `check_ipy_version`: `import IPython` inside a `try` whose
`except ImportError` returns `False`; on success compares
`IPython.version_info >= min_version`. -/
def check_ipy_version (env : PyEnv) (min_version : List Nat) :
    Except PyError Bool :=
  match env.ipythonVersion with
  | none => Except.ok false
  | some v => Except.ok (tupleGe v min_version)

/-- The `try` body of `has_ipynb_widgets`.  It reads the module-level global
`IPython`: when the module-level `import IPython` failed, that name is
unbound and evaluating it raises `NameError` (not `ImportError`).  Otherwise
`IPython.version_info[0]` selects which widget/traitlets packages are
imported; a failing import raises `ImportError`. -/
def has_ipynb_widgets_body (env : PyEnv) : Except PyError Bool :=
  match env.ipythonVersion with
  | none => Except.error PyError.nameError
  | some v =>
    match v.head? with
    | none => Except.error PyError.indexError
    | some v0 =>
      if v0 ≤ 3 then
        if !env.oldWidgetsImportable then Except.error PyError.importError
        else if !env.oldTraitletsImportable then Except.error PyError.importError
        else Except.ok true
      else
        if !env.newWidgetsImportable then Except.error PyError.importError
        else if !env.newTraitletsImportable then Except.error PyError.importError
        else Except.ok true

/-- `has_ipynb_widgets`: runs the `try` body; `except ImportError` returns
`False`; the `else` branch returns `True`; any other exception (in
particular `NameError`) propagates. -/
def has_ipynb_widgets (env : PyEnv) : Except PyError Bool :=
  match has_ipynb_widgets_body env with
  | Except.ok b => Except.ok b
  | Except.error PyError.importError => Except.ok false
  | Except.error e => Except.error e

/-- A notebook cell: its `cell_type` and (opaque) source content. -/
structure Cell where
  cell_type : List Char
  source : List Char
deriving DecidableEq

/-- A worksheet of an old-format (`nbformat <= 3`) notebook. -/
structure Worksheet where
  cells : List Cell
deriving DecidableEq

/-- A loaded notebook document: its `nbformat` version, its worksheets (old
format) and its top-level cells (new format). -/
structure Notebook where
  nbformat : Nat
  worksheets : List Worksheet
  cells : List Cell
deriving DecidableEq

/-- `iter_cells`, translated from the source: old documents flatten all
worksheets' cells (the `cells.extend(ws.cells)` loop), new documents use the
top-level cells; then the `for`/`yield` keeps cells of the requested type. -/
def iter_cells (nb : Notebook) (ct : List Char) : List Cell :=
  let cells :=
    if nb.nbformat ≤ 3 then
      nb.worksheets.foldl (fun acc ws => acc ++ ws.cells) []
    else nb.cells
  cells.filter (fun c => c.cell_type == ct)

/-- One step of `export_images`' loop over `resources['outputs']`: replace
the identifier by its new relative path in the accumulated HTML and record
the file write `(image_dir/fname, payload)`. -/
def export_images_step (image_dir image_rel_dir my_uuid : List Char)
    (acc : List Char × List (List Char × List Nat))
    (entry : List Char × List Nat) :
    List Char × List (List Char × List Nat) :=
  let fname := my_uuid ++ entry.1
  let new_path := osPathJoin image_dir fname
  let new_rel_path := osPathJoin image_rel_dir fname
  (replaceAll entry.1 new_rel_path acc.1, acc.2 ++ [(new_path, entry.2)])

/-- `export_images`, translated from the source.  `outputs` is the
`resources['outputs']` mapping (association list in iteration order);
`my_uuid` stands for the `uuid.uuid4().hex` value generated once per call.
Returns the patched HTML and the list of binary file writes. -/
def export_images (outputs : List (List Char × List Nat))
    (image_dir image_rel_dir html_out my_uuid : List Char) :
    List Char × List (List Char × List Nat) :=
  outputs.foldl (export_images_step image_dir image_rel_dir my_uuid) (html_out, [])

/-- Tag and CSS literals used by `export_html` (braces written `\x7b`/`\x7d`). -/
def headTag : List Char := ("<head>").toList

/-- Closing head tag literal. -/
def headCloseTag : List Char := ("</head>").toList

/-- Opening body tag literal. -/
def bodyTag : List Char := ("<body>").toList

/-- Closing body tag literal. -/
def bodyCloseTag : List Char := ("</body>").toList

/-- `'<style'` literal. -/
def styleTag : List Char := ("<style").toList

/-- Replacement that scopes style tags. -/
def styleScopedTag : List Char := ("<style scoped=\"scoped\"").toList

/-- The padding/overflow CSS rule removed from the header. -/
def cssBodyRule : List Char :=
  ("body \x7b\n  overflow: visible;\n  padding: 8px;\n\x7d\n").toList

/-- `"code,pre{"` literal. -/
def codePreRule : List Char := ("code,pre\x7b").toList

/-- `"code{"` literal. -/
def codeRule : List Char := ("code\x7b").toList

/-- The `bad_anywhere` selector list (with `['h%s{' % (i+1) for i in
range(6)]` unrolled). -/
def badAnywhere : List (List Char) :=
  [("navbar").toList, ("body\x7b").toList, ("alert\x7b").toList,
   ("uneditable-input\x7b").toList, ("collapse\x7b").toList,
   ("h1\x7b").toList, ("h2\x7b").toList, ("h3\x7b").toList,
   ("h4\x7b").toList, ("h5\x7b").toList, ("h6\x7b").toList]

/-- The `bad_beginning` selector list. -/
def badBeginning : List (List Char) :=
  [("pre\x7b").toList, ("p\x7bmargin").toList]

/-- Opening wrapper line of the emitted HTML. -/
def divOpen : List Char := ("<div class=\"ipynotebook\">").toList

/-- Closing wrapper line of the emitted HTML. -/
def divClose : List Char := ("</div>").toList

/-- Result of `export_html`: the returned HTML text, the binary image writes,
and the optional destination write. -/
structure HtmlResult where
  html : List Char
  imageFiles : List (List Char × List Nat)
  destWrite : Option (List Char × List Char)
deriving DecidableEq

/-- `export_html`, translated from the source.  Its input is the rendered
text and resources the external HTML exporter produced
(`exporter.from_notebook_node(nb)`); `my_uuid` is the random identifier
`export_images` would generate.  The head/body extraction uses
`split(tag, 1)[1]` (raising `IndexError` when the tag is absent) and
`split(tag, 1)[0]` (never raising). -/
def export_html (output : List Char) (outputs : List (List Char × List Nat))
    (dest_path : Option (List Char))
    (image_dir image_rel_dir : Option (List Char)) (my_uuid : List Char) :
    Except PyError HtmlResult :=
  match part1 headTag output with
  | Except.error e => Except.error e
  | Except.ok afterHead =>
    match part1 bodyTag output with
    | Except.error e => Except.error e
    | Except.ok afterBody =>
      let header := part0 headCloseTag afterHead
      let body := part0 bodyCloseTag afterBody
      let header := replaceAll styleTag styleScopedTag header
      let header := replaceAll cssBodyRule [] header
      let header := replaceAll codePreRule codeRule header
      let headerLines := (splitNl header).filter (fun x =>
        !(badBeginning.any (fun s => prefixB s x))
        && !(badAnywhere.any (fun s => occursB s x)))
      let header := List.intercalate ['\n'] headerLines
      let html_out := List.intercalate ['\n'] [divOpen, header, body, divClose]
      let imgRes :=
        match image_dir, image_rel_dir with
        | some d, some rd => export_images outputs d rd html_out my_uuid
        | _, _ => (html_out, [])
      Except.ok ⟨imgRes.1, imgRes.2, dest_path.map (fun p => (p, imgRes.1))⟩

/-! ### Properties of the string primitives -/

theorem findSub_nil (pat : List Char) :
    findSub pat [] = if pat.isEmpty then some 0 else none := rfl

theorem findSub_cons (pat : List Char) (c : Char) (cs : List Char) :
    findSub pat (c :: cs) =
      if prefixB pat (c :: cs) then some 0
      else (findSub pat cs).map (fun i => i + 1) := rfl

theorem prefixB_iff (pat s : List Char) :
    prefixB pat s = true ↔ ∃ t, s = pat ++ t := by
  induction pat generalizing s with
  | nil => simp [prefixB]
  | cons p ps ih =>
    cases s with
    | nil => simp [prefixB]
    | cons c cs =>
      simp only [prefixB, Bool.and_eq_true, beq_iff_eq]
      constructor
      · rintro ⟨rfl, h⟩
        obtain ⟨t, rfl⟩ := (ih cs).mp h
        exact ⟨t, rfl⟩
      · rintro ⟨t, ht⟩
        injection ht with h1 h2
        exact ⟨h1.symm, (ih cs).mpr ⟨t, h2⟩⟩

theorem prefixB_append_self (p t : List Char) : prefixB p (p ++ t) = true :=
  (prefixB_iff p (p ++ t)).mpr ⟨t, rfl⟩

theorem prefixB_length_le {pat s : List Char} (h : prefixB pat s = true) :
    pat.length ≤ s.length := by
  obtain ⟨t, rfl⟩ := (prefixB_iff pat s).mp h
  simp

theorem prefixB_of_take {pat s : List Char} {k : Nat}
    (h : prefixB pat (s.take k) = true) : prefixB pat s = true := by
  obtain ⟨t, ht⟩ := (prefixB_iff pat (s.take k)).mp h
  refine (prefixB_iff pat s).mpr ⟨t ++ s.drop k, ?_⟩
  conv_lhs => rw [← List.take_append_drop k s]
  rw [ht, List.append_assoc]

theorem findSub_prefixB {pat s : List Char} {i : Nat}
    (h : findSub pat s = some i) : prefixB pat (s.drop i) = true := by
  induction s generalizing i with
  | nil =>
    rw [findSub_nil] at h
    by_cases he : pat.isEmpty
    · rw [if_pos he] at h
      cases h
      rw [List.isEmpty_iff] at he
      subst he
      simp [prefixB]
    · rw [if_neg he] at h
      cases h
  | cons c cs ih =>
    rw [findSub_cons] at h
    by_cases hp : prefixB pat (c :: cs) = true
    · rw [if_pos hp] at h
      cases h
      simpa using hp
    · rw [if_neg hp] at h
      cases hf : findSub pat cs with
      | none => rw [hf] at h; cases h
      | some j =>
        rw [hf] at h
        simp only [Option.map_some'] at h
        cases h
        simpa using ih hf

theorem findSub_min {pat s : List Char} {i : Nat}
    (h : findSub pat s = some i) :
    ∀ j, j < i → prefixB pat (s.drop j) = false := by
  induction s generalizing i with
  | nil =>
    intro j hj
    rw [findSub_nil] at h
    by_cases he : pat.isEmpty
    · rw [if_pos he] at h; cases h; omega
    · rw [if_neg he] at h; cases h
  | cons c cs ih =>
    intro j hj
    rw [findSub_cons] at h
    by_cases hp : prefixB pat (c :: cs) = true
    · rw [if_pos hp] at h; cases h; omega
    · rw [if_neg hp] at h
      cases hf : findSub pat cs with
      | none => rw [hf] at h; cases h
      | some k =>
        rw [hf] at h
        simp only [Option.map_some'] at h
        cases h
        cases j with
        | zero => simpa using Bool.eq_false_iff.mpr (fun hh => hp hh)
        | succ j' => simpa using ih hf j' (by omega)

theorem findSub_le {pat s : List Char} {i : Nat}
    (h : findSub pat s = some i) : i ≤ s.length := by
  induction s generalizing i with
  | nil =>
    rw [findSub_nil] at h
    by_cases he : pat.isEmpty
    · rw [if_pos he] at h; cases h; simp
    · rw [if_neg he] at h; cases h
  | cons c cs ih =>
    rw [findSub_cons] at h
    by_cases hp : prefixB pat (c :: cs) = true
    · rw [if_pos hp] at h; cases h; simp
    · rw [if_neg hp] at h
      cases hf : findSub pat cs with
      | none => rw [hf] at h; cases h
      | some j =>
        rw [hf] at h
        simp only [Option.map_some'] at h
        cases h
        have := ih hf
        simp only [List.length_cons]
        omega

theorem findSub_bound {pat s : List Char} {i : Nat}
    (h : findSub pat s = some i) : i + pat.length ≤ s.length := by
  have h1 := prefixB_length_le (findSub_prefixB h)
  have h2 := findSub_le h
  rw [List.length_drop] at h1
  omega

theorem findSub_none {pat s : List Char} (h : findSub pat s = none) :
    ∀ j, prefixB pat (s.drop j) = false := by
  induction s with
  | nil =>
    intro j
    rw [findSub_nil] at h
    by_cases he : pat.isEmpty
    · rw [if_pos he] at h; cases h
    · rw [List.drop_nil]
      cases pat with
      | nil => simp [List.isEmpty] at he
      | cons p ps => simp [prefixB]
  | cons c cs ih =>
    intro j
    rw [findSub_cons] at h
    by_cases hp : prefixB pat (c :: cs) = true
    · rw [if_pos hp] at h; cases h
    · rw [if_neg hp] at h
      cases hf : findSub pat cs with
      | some k => rw [hf] at h; simp at h
      | none =>
        cases j with
        | zero => simpa using Bool.eq_false_iff.mpr (fun hh => hp hh)
        | succ j' => simpa using ih hf j'

theorem findSub_isSome_of {pat s : List Char} {j : Nat}
    (h : prefixB pat (s.drop j) = true) : (findSub pat s).isSome = true := by
  cases hf : findSub pat s with
  | none => rw [findSub_none hf j] at h; cases h
  | some i => rfl

theorem occursB_decomp {pat s : List Char} :
    occursB pat s = true ↔ ∃ u v, s = u ++ pat ++ v := by
  constructor
  · intro h
    rw [occursB, Option.isSome_iff_exists] at h
    obtain ⟨i, hi⟩ := h
    obtain ⟨t, ht⟩ := (prefixB_iff pat (s.drop i)).mp (findSub_prefixB hi)
    refine ⟨s.take i, t, ?_⟩
    conv_lhs => rw [← List.take_append_drop i s]
    rw [ht, List.append_assoc]
  · rintro ⟨u, v, rfl⟩
    refine findSub_isSome_of (j := u.length) ?_
    rw [List.append_assoc, List.drop_left]
    exact prefixB_append_self pat v

theorem occursB_cons (pat : List Char) (c : Char) (s : List Char) :
    occursB pat (c :: s) = (prefixB pat (c :: s) || occursB pat s) := by
  rw [occursB, findSub_cons]
  by_cases hp : prefixB pat (c :: s) = true
  · rw [if_pos hp, hp]; simp
  · rw [if_neg hp]
    rw [Bool.not_eq_true] at hp
    rw [hp]
    simp only [Bool.false_or, occursB]
    cases findSub pat s <;> simp

theorem occursB_empty_pat (s : List Char) : occursB [] s = true := by
  cases s <;> simp [occursB, findSub, List.isEmpty, prefixB]

theorem occursB_false_ne_empty {pat s : List Char} (h : occursB pat s = false) :
    pat ≠ [] := by
  intro hp
  rw [hp, occursB_empty_pat] at h
  cases h

theorem occursB_of_append_pat {x p s : List Char}
    (h : occursB (x ++ p) s = true) : occursB p s = true := by
  obtain ⟨u, v, rfl⟩ := occursB_decomp.mp h
  exact occursB_decomp.mpr ⟨u ++ x, v, by simp⟩

theorem prefixB_stop {pat : List Char} {c : Char} (a b : List Char)
    (hc : c ∉ pat) (h : prefixB pat (a ++ c :: b) = true) :
    pat.length ≤ a.length := by
  induction a generalizing pat with
  | nil =>
    cases pat with
    | nil => simp
    | cons p ps =>
      simp only [List.nil_append, prefixB, Bool.and_eq_true, beq_iff_eq] at h
      exact absurd (h.1 ▸ List.mem_cons_self p ps) hc
  | cons x a' ih =>
    cases pat with
    | nil => simp
    | cons p ps =>
      simp only [List.cons_append, prefixB, Bool.and_eq_true, beq_iff_eq] at h
      have := ih (fun hm => hc (List.mem_cons_of_mem p hm)) h.2
      simp only [List.length_cons]
      omega

theorem prefixB_of_append_le {pat a b : List Char}
    (h : prefixB pat (a ++ b) = true) (hl : pat.length ≤ a.length) :
    prefixB pat a = true := by
  induction a generalizing pat with
  | nil =>
    cases pat with
    | nil => simp [prefixB]
    | cons p ps => simp at hl
  | cons x a' ih =>
    cases pat with
    | nil => simp [prefixB]
    | cons p ps =>
      simp only [List.cons_append, prefixB, Bool.and_eq_true, beq_iff_eq] at h ⊢
      simp only [List.length_cons] at hl
      exact ⟨h.1, ih h.2 (by omega)⟩

theorem occursB_split_char {pat : List Char} {c : Char} (a b : List Char)
    (hc : c ∉ pat) (h : occursB pat (a ++ c :: b) = true) :
    occursB pat a = true ∨ occursB pat b = true := by
  induction a with
  | nil =>
    rw [List.nil_append, occursB_cons] at h
    simp only [Bool.or_eq_true] at h
    rcases h with hp | ho
    · cases pat with
      | nil => exact Or.inl (occursB_empty_pat [])
      | cons p ps =>
        simp only [prefixB, Bool.and_eq_true, beq_iff_eq] at hp
        exact absurd (hp.1 ▸ List.mem_cons_self p ps) hc
    · exact Or.inr ho
  | cons x a' ih =>
    rw [List.cons_append, occursB_cons] at h
    simp only [Bool.or_eq_true] at h
    rcases h with hp | ho
    · cases hpat : pat with
      | nil => exact Or.inl (occursB_empty_pat (x :: a'))
      | cons p ps =>
        subst hpat
        have hle := prefixB_stop (x :: a') b hc (by simpa using hp)
        have := prefixB_of_append_le (a := x :: a') (b := c :: b) (by simpa using hp) hle
        refine Or.inl ?_
        rw [occursB_cons, this, Bool.true_or]
    · rcases ih ho with h1 | h2
      · refine Or.inl ?_
        rw [occursB_cons, h1, Bool.or_true]
      · exact Or.inr h2

theorem raMode_skip (pat repl : List Char) :
    ∀ (k : Nat) (s : List Char), k ≤ s.length →
      raMode pat repl k s = raMode pat repl 0 (s.drop k) := by
  intro k
  induction k with
  | zero => intro s _; simp
  | succ k' ih =>
    intro s hk
    cases s with
    | nil => simp at hk
    | cons c cs =>
      show raMode pat repl k' cs = _
      rw [List.drop_succ_cons]
      exact ih cs (by simpa using hk)

theorem replaceAll_pos {pat s : List Char} (repl : List Char)
    (hp : pat ≠ []) (h : prefixB pat s = true) :
    replaceAll pat repl s = repl ++ replaceAll pat repl (s.drop pat.length) := by
  have hne : pat.isEmpty = false := by
    cases pat with
    | nil => exact absurd rfl hp
    | cons p ps => rfl
  cases s with
  | nil =>
    obtain ⟨t, ht⟩ := (prefixB_iff pat []).mp h
    cases pat with
    | nil => exact absurd rfl hp
    | cons p ps => cases ht
  | cons c cs =>
    show raMode pat repl 0 (c :: cs) = _
    rw [show raMode pat repl 0 (c :: cs) =
        if pat.isEmpty then repl ++ c :: raMode pat repl 0 cs
        else if prefixB pat (c :: cs) then repl ++ raMode pat repl (pat.length - 1) cs
        else c :: raMode pat repl 0 cs from rfl]
    rw [hne]
    simp only [Bool.false_eq_true, if_false, h, if_true]
    cases pat with
    | nil => exact absurd rfl hp
    | cons p ps =>
      have hlen : ps.length ≤ cs.length := by
        have := prefixB_length_le h
        simp only [List.length_cons] at this
        omega
      rw [show (p :: ps).length - 1 = ps.length from by simp,
          raMode_skip (p :: ps) repl ps.length cs hlen,
          show (c :: cs).drop (p :: ps).length = cs.drop ps.length from by simp]
      rfl

theorem replaceAll_neg {pat : List Char} {c : Char} {cs : List Char}
    (repl : List Char) (h : prefixB pat (c :: cs) = false) :
    replaceAll pat repl (c :: cs) = c :: replaceAll pat repl cs := by
  have hne : pat.isEmpty = false := by
    cases pat with
    | nil => simp [prefixB] at h
    | cons p ps => rfl
  show raMode pat repl 0 (c :: cs) = _
  rw [show raMode pat repl 0 (c :: cs) =
      if pat.isEmpty then repl ++ c :: raMode pat repl 0 cs
      else if prefixB pat (c :: cs) then repl ++ raMode pat repl (pat.length - 1) cs
      else c :: raMode pat repl 0 cs from rfl]
  rw [hne, h]
  simp only [Bool.false_eq_true, if_false]
  rfl

theorem replaceAll_no_occ {pat s : List Char} (repl : List Char)
    (h : occursB pat s = false) : replaceAll pat repl s = s := by
  induction s with
  | nil =>
    have hne : pat.isEmpty = false := by
      cases pat with
      | nil => exact absurd rfl (occursB_false_ne_empty h)
      | cons p ps => rfl
    show raMode pat repl 0 [] = []
    rw [show raMode pat repl 0 [] = if pat.isEmpty then repl else [] from rfl, hne]
    simp
  | cons c cs ih =>
    rw [occursB_cons] at h
    simp only [Bool.or_eq_false_iff] at h
    rw [replaceAll_neg repl h.1, ih h.2]

theorem replaceAll_occurs_repl {pat s : List Char} (repl : List Char)
    (hp : pat ≠ []) (h : occursB pat s = true) :
    occursB repl (replaceAll pat repl s) = true := by
  induction s with
  | nil =>
    obtain ⟨u, v, huv⟩ := occursB_decomp.mp h
    exact absurd (List.append_eq_nil.mp (List.append_eq_nil.mp huv.symm).1).2 hp
  | cons c cs ih =>
    by_cases hpre : prefixB pat (c :: cs) = true
    · rw [replaceAll_pos repl hp hpre]
      exact occursB_decomp.mpr ⟨[], replaceAll pat repl ((c :: cs).drop pat.length), rfl⟩
    · rw [occursB_cons] at h
      simp only [Bool.or_eq_true] at h
      rcases h with h1 | h2
      · exact absurd h1 hpre
      · rw [replaceAll_neg repl (Bool.eq_false_iff.mpr hpre)]
        rw [occursB_cons, ih h2, Bool.or_true]

theorem drop_append_add (a b : List Char) (k : Nat) :
    (a ++ b).drop (a.length + k) = b.drop k := by
  induction a with
  | nil => simp
  | cons x xs ih =>
    simp only [List.cons_append, List.length_cons]
    rw [show xs.length + 1 + k = (xs.length + k) + 1 from by omega,
        List.drop_succ_cons]
    exact ih

theorem stripFuel_zero (pat body : List Char) :
    stripFuel pat 0 body =
      if findSub pat body = none then some body else none := rfl

theorem stripFuel_succ (pat body : List Char) (n : Nat) :
    stripFuel pat (n + 1) body =
      if findSub pat body = none then some body
      else stripFuel pat n (stripStep pat body) := rfl

theorem stripFuel_of_none {pat body : List Char}
    (h : findSub pat body = none) (n : Nat) :
    stripFuel pat n body = some body := by
  cases n with
  | zero => rw [stripFuel_zero, if_pos h]
  | succ n => rw [stripFuel_succ, if_pos h]

theorem stripFuel_some_none {pat : List Char} {n : Nat} {body out : List Char}
    (h : stripFuel pat n body = some out) : findSub pat out = none := by
  induction n generalizing body with
  | zero =>
    rw [stripFuel_zero] at h
    by_cases hf : findSub pat body = none
    · rw [if_pos hf] at h; cases h; exact hf
    · rw [if_neg hf] at h; cases h
  | succ n ih =>
    rw [stripFuel_succ] at h
    by_cases hf : findSub pat body = none
    · rw [if_pos hf] at h; cases h; exact hf
    · rw [if_neg hf] at h; exact ih h

theorem stripFuel_mono {pat : List Char} {n : Nat} {body out : List Char}
    (h : stripFuel pat n body = some out) :
    stripFuel pat (n + 1) body = some out := by
  induction n generalizing body with
  | zero =>
    rw [stripFuel_zero] at h
    by_cases hf : findSub pat body = none
    · rw [if_pos hf] at h; cases h; exact stripFuel_of_none hf 1
    · rw [if_neg hf] at h; cases h
  | succ n ih =>
    rw [stripFuel_succ] at h
    rw [stripFuel_succ]
    by_cases hf : findSub pat body = none
    · rw [if_pos hf] at h; rw [if_pos hf]; exact h
    · rw [if_neg hf] at h; rw [if_neg hf]; exact ih h

theorem stripFuel_mono_le {pat : List Char} {n m : Nat} {body out : List Char}
    (hnm : n ≤ m) (h : stripFuel pat n body = some out) :
    stripFuel pat m body = some out := by
  obtain ⟨k, hk⟩ := Nat.le.dest hnm
  subst hk
  clear hnm
  induction k with
  | zero => exact h
  | succ k ih => exact stripFuel_mono ih

theorem gip_ne_nil : gip ≠ [] := by decide

theorem gip_no_newline : '\n' ∉ gip := by decide

theorem stripFuel_terminates_aux :
    ∀ (n : Nat) (body : List Char), body.length ≤ n →
      ((∃ b, body = b ++ ['\n']) ∨ findSub gip body = none) →
      (stripFuel gip n body).isSome = true := by
  intro n
  induction n with
  | zero =>
    intro body hlen _
    have hb : body = [] := List.length_eq_zero.mp (Nat.le_zero.mp hlen)
    subst hb
    rw [stripFuel_zero, if_pos (by decide)]
    rfl
  | succ n ih =>
    intro body hlen hinv
    rw [stripFuel_succ]
    by_cases hf : findSub gip body = none
    · rw [if_pos hf]; rfl
    · rw [if_neg hf]
      rcases hinv with ⟨b, rfl⟩ | hnone
      · obtain ⟨i0, hi0⟩ : ∃ i0, findSub gip (b ++ ['\n']) = some i0 := by
          cases hfs : findSub gip (b ++ ['\n']) with
          | none => exact absurd hfs hf
          | some i => exact ⟨i, rfl⟩
        have hg1 : 1 ≤ gip.length := by decide
        have hbound := findSub_bound hi0
        have hlenb : (b ++ ['\n']).length = b.length + 1 := by simp
        rw [hlenb] at hbound
        have hi0le : i0 ≤ b.length := by omega
        have hdrop : (b ++ ['\n']).drop i0 = b.drop i0 ++ ['\n'] :=
          List.drop_append_of_le_length hi0le
        have hnlocc : (findSub ['\n'] ((b ++ ['\n']).drop i0)).isSome = true := by
          rw [hdrop]
          refine findSub_isSome_of (j := (b.drop i0).length) ?_
          rw [List.drop_left]
          exact prefixB_append_self ['\n'] []
        obtain ⟨j0, hj0⟩ := Option.isSome_iff_exists.mp hnlocc
        have hfc : findCharFrom '\n' (b ++ ['\n']) i0 = some (j0 + i0) := by
          rw [findCharFrom, hj0, Option.map_some']
        have hj0b := findSub_bound hj0
        rw [List.length_drop, hlenb] at hj0b
        have hstep : stripStep gip (b ++ ['\n']) =
            (b ++ ['\n']).take i0 ++ (b ++ ['\n']).drop (j0 + i0 + 1) := by
          simp only [stripStep, hi0, hfc]
        have htakelen : ((b ++ ['\n']).take i0).length = i0 := by
          rw [List.length_take, hlenb]
          omega
        have hlen2 : (stripStep gip (b ++ ['\n'])).length ≤ n := by
          rw [hstep, List.length_append, htakelen, List.length_drop, hlenb]
          rw [hlenb] at hlen
          omega
        refine ih (stripStep gip (b ++ ['\n'])) hlen2 ?_
        by_cases hd : (b ++ ['\n']).drop (j0 + i0 + 1) = []
        · refine Or.inr ?_
          rw [hstep, hd, List.append_nil]
          cases hfs2 : findSub gip ((b ++ ['\n']).take i0) with
          | none => rfl
          | some j =>
            exfalso
            have hpre := findSub_prefixB hfs2
            have hjb := findSub_bound hfs2
            rw [htakelen] at hjb
            rw [List.drop_take] at hpre
            have hpre2 := prefixB_of_take hpre
            have hmin := findSub_min hi0 j (by omega)
            rw [hmin] at hpre2
            cases hpre2
        · refine Or.inl ?_
          have hle : j0 + i0 + 1 ≤ b.length := by
            by_contra hcon
            push_neg at hcon
            exact hd (List.drop_eq_nil_of_le (by rw [hlenb]; omega))
          have hdropeq : (b ++ ['\n']).drop (j0 + i0 + 1) =
              b.drop (j0 + i0 + 1) ++ ['\n'] :=
            List.drop_append_of_le_length hle
          exact ⟨(b ++ ['\n']).take i0 ++ b.drop (j0 + i0 + 1),
            by rw [hstep, hdropeq, List.append_assoc]⟩
      · exact absurd hnone hf

theorem stripFuel_stuck :
    ∀ (n : Nat) (body : List Char) (j : Nat),
      prefixB gip (body.drop j) = true → '\n' ∉ body.drop j →
      stripFuel gip n body = none := by
  intro n
  induction n with
  | zero =>
    intro body j hocc hnl
    have hs := findSub_isSome_of hocc
    rw [stripFuel_zero, if_neg (by intro heq; rw [heq] at hs; cases hs)]
  | succ n ih =>
    intro body j hocc hnl
    have hs := findSub_isSome_of hocc
    obtain ⟨i0, hi0⟩ := Option.isSome_iff_exists.mp hs
    rw [stripFuel_succ, if_neg (by intro heq; rw [heq] at hi0; cases hi0)]
    have hbound := findSub_bound hi0
    have htakelen : (body.take i0).length = i0 := by
      rw [List.length_take]
      omega
    cases hfc : findCharFrom '\n' body i0 with
    | none =>
      have hstep : stripStep gip body = body.take i0 ++ body := by
        simp only [stripStep, hi0, hfc]
      refine ih (stripStep gip body) (i0 + j) ?_ ?_
      · rw [hstep, show i0 + j = (body.take i0).length + j from by rw [htakelen],
            drop_append_add]
        exact hocc
      · rw [hstep, show i0 + j = (body.take i0).length + j from by rw [htakelen],
            drop_append_add]
        exact hnl
    | some i1 =>
      obtain ⟨j0, hj0, hj0i⟩ : ∃ j0, findSub ['\n'] (body.drop i0) = some j0 ∧ i1 = j0 + i0 := by
        rw [findCharFrom] at hfc
        cases hj : findSub ['\n'] (body.drop i0) with
        | none => rw [hj] at hfc; cases hfc
        | some j0 =>
          rw [hj, Option.map_some'] at hfc
          cases hfc
          exact ⟨j0, rfl, rfl⟩
      have hnlpre : prefixB ['\n'] (body.drop i1) = true := by
        have := findSub_prefixB hj0
        rw [List.drop_drop] at this
        rw [hj0i, Nat.add_comm j0 i0]
        exact this
      have hlt : i1 < j := by
        by_contra hge
        push_neg at hge
        apply hnl
        obtain ⟨t, ht⟩ := (prefixB_iff ['\n'] (body.drop i1)).mp hnlpre
        have hmem : '\n' ∈ body.drop i1 := by
          rw [ht]
          exact List.mem_cons_self '\n' t
        have : body.drop i1 = (body.drop j).drop (i1 - j) := by
          rw [List.drop_drop]
          congr 1
          omega
        rw [this] at hmem
        exact List.mem_of_mem_drop hmem
      have hstep : stripStep gip body = body.take i0 ++ body.drop (i1 + 1) := by
        simp only [stripStep, hi0, hfc]
      have hidx : i0 + (j - (i1 + 1)) = (body.take i0).length + (j - (i1 + 1)) := by
        rw [htakelen]
      have hback : (i1 + 1) + (j - (i1 + 1)) = j := by omega
      refine ih (stripStep gip body) (i0 + (j - (i1 + 1))) ?_ ?_
      · rw [hstep, hidx, drop_append_add, List.drop_drop, hback]
        exact hocc
      · rw [hstep, hidx, drop_append_add, List.drop_drop, hback]
        exact hnl

theorem findSub_singleton_append (c : Char) (a b : List Char) (hc : c ∉ a) :
    findSub [c] (a ++ c :: b) = some a.length := by
  induction a with
  | nil =>
    rw [List.nil_append, findSub_cons, if_pos]
    · rfl
    · simp [prefixB]
  | cons x xs ih =>
    rw [List.cons_append, findSub_cons, if_neg, ih (fun hm => hc (List.mem_cons_of_mem x hm))]
    · rfl
    · simp only [prefixB, Bool.and_eq_true, beq_iff_eq]
      rintro ⟨rfl, -⟩
      exact hc (List.mem_cons_self c xs)

theorem occursB_false_of_findSub_none {pat s : List Char}
    (h : findSub pat s = none) : occursB pat s = false := by
  rw [occursB, h]
  rfl

theorem export_images_foldl_files (d rd u : List Char) :
    ∀ (outputs : List (List Char × List Nat)) (h : List Char)
      (acc : List (List Char × List Nat)),
      (outputs.foldl (export_images_step d rd u) (h, acc)).2
        = acc ++ outputs.map (fun e => (osPathJoin d (u ++ e.1), e.2)) := by
  intro outputs
  induction outputs with
  | nil => intro h acc; simp
  | cons e es ih =>
    intro h acc
    rw [List.foldl_cons, List.map_cons]
    rw [show export_images_step d rd u (h, acc) e =
        (replaceAll e.1 (osPathJoin rd (u ++ e.1)) h,
         acc ++ [(osPathJoin d (u ++ e.1), e.2)]) from rfl]
    rw [ih]
    simp

theorem export_images_foldl_html (d rd u : List Char) :
    ∀ (outputs : List (List Char × List Nat)) (h : List Char)
      (acc : List (List Char × List Nat)),
      (∀ e ∈ outputs, occursB e.1 h = false) →
      (outputs.foldl (export_images_step d rd u) (h, acc)).1 = h := by
  intro outputs
  induction outputs with
  | nil => intro h acc _; rfl
  | cons e es ih =>
    intro h acc hno
    rw [List.foldl_cons]
    rw [show export_images_step d rd u (h, acc) e =
        (replaceAll e.1 (osPathJoin rd (u ++ e.1)) h,
         acc ++ [(osPathJoin d (u ++ e.1), e.2)]) from rfl]
    rw [replaceAll_no_occ _ (hno e (List.mem_cons_self e es))]
    exact ih h _ (fun x hx => hno x (List.mem_cons_of_mem e hx))

theorem osPathJoin_suffix (a b : List Char) :
    ∃ x, osPathJoin a b = x ++ b := by
  rw [osPathJoin]
  by_cases h1 : prefixB [( '/' )] b = true
  · rw [if_pos h1]; exact ⟨[], rfl⟩
  · rw [if_neg h1]
    by_cases h2 : a.isEmpty = true
    · rw [if_pos h2]; exact ⟨[], rfl⟩
    · rw [if_neg h2]
      by_cases h3 : a.getLast? = some '/'
      · rw [if_pos h3]; exact ⟨a, rfl⟩
      · rw [if_neg h3]; exact ⟨a ++ ['/'], by simp⟩

theorem worksheets_foldl_eq_flatten :
    ∀ (l : List Worksheet) (init : List Cell),
      l.foldl (fun acc ws => acc ++ ws.cells) init
        = init ++ (l.map Worksheet.cells).flatten := by
  intro l
  induction l with
  | nil => intro init; simp
  | cons w ws ih =>
    intro init
    rw [List.foldl_cons, ih, List.map_cons, List.flatten_cons, List.append_assoc]

/-! ### Claim theorems -/

/-- Claim C1, counterexample.  The claim states that the HTML text returned
by `export_images` contains no reference to any original resource
identifier.  With the single resource `img.png`, HTML text `src=img.png`,
shared identifier `u0` and relative directory `rel`, the returned text is
`src=rel/u0img.png`: the new filename is the shared identifier prefixed to
the original identifier, so the original identifier `img.png` still occurs
in the returned text.  Moreover, with several resources the replacements
interact: on the mapping with identifiers `ab` then `b` and HTML text `ab`,
the first replacement inserts `rel/u0ab` and the second rewrites the `b`
inside it, returning `rel/u0arel/u0b` - in which even the replaced
identifier `ab` no longer occurs - so no containment guarantee holds for
multi-resource mappings either. -/
theorem C1_counterexample :
    (export_images [((("img.png").toList), [1])] (("imgs").toList)
        (("rel").toList) (("src=img.png").toList) (("u0").toList)).1
      = ("src=rel/u0img.png").toList
    ∧ occursB (("img.png").toList) (("src=rel/u0img.png").toList) = true
    ∧ (export_images [((("ab").toList), [1]), ((("b").toList), [2])]
        (("imgs").toList) (("rel").toList) (("ab").toList) (("u0").toList)).1
      = ("rel/u0arel/u0b").toList
    ∧ occursB (("ab").toList) (("rel/u0arel/u0b").toList) = false := by
  exact ⟨by decide, by decide, by decide, by decide⟩

/-- Claim C1, amended.  For every resources mapping, `export_images` writes
one file per entry, named by the one shared identifier prefixed to the
entry's original identifier, carrying the entry's payload.  For a mapping
containing a single resource whose identifier occurs in the HTML text, it
replaces every occurrence of that identifier with the new relative path
(this is `replaceAll`, Python's `str.replace`), and the new relative path
occurs in the returned text; because the new filename embeds the original
identifier as a suffix, the original identifier still occurs in the
returned text rather than being eliminated.  (With several resources a
later replacement can rewrite text inserted by an earlier one - see the
counterexample - so the singleton scope of the containment part is
essential.) -/
theorem C1_export_images_amended :
    (∀ (outputs : List (List Char × List Nat)) (d rd html u : List Char),
        (export_images outputs d rd html u).2
          = outputs.map (fun e => (osPathJoin d (u ++ e.1), e.2)))
    ∧ (∀ (id : List Char) (payload : List Nat) (d rd html u : List Char),
        id ≠ [] → occursB id html = true →
        (export_images [(id, payload)] d rd html u).1
            = replaceAll id (osPathJoin rd (u ++ id)) html
        ∧ occursB (osPathJoin rd (u ++ id))
            ((export_images [(id, payload)] d rd html u).1) = true
        ∧ occursB id ((export_images [(id, payload)] d rd html u).1) = true) := by
  constructor
  · intro outputs d rd html u
    have := export_images_foldl_files d rd u outputs html []
    rw [List.nil_append] at this
    exact this
  · intro id payload d rd html u h1 h2
    have hhtml : (export_images [(id, payload)] d rd html u).1
        = replaceAll id (osPathJoin rd (u ++ id)) html := rfl
    have hocc : occursB (osPathJoin rd (u ++ id))
        ((export_images [(id, payload)] d rd html u).1) = true := by
      rw [hhtml]
      exact replaceAll_occurs_repl _ h1 h2
    refine ⟨hhtml, hocc, ?_⟩
    obtain ⟨x, hx⟩ := osPathJoin_suffix rd (u ++ id)
    rw [← List.append_assoc] at hx
    rw [hx] at hocc
    exact occursB_of_append_pat hocc

/-- Claim C1, amended claim witness: the file-writes part at the
counterexample's two-resource mapping, and the replacement/containment part
at the single-resource input. -/
theorem C1_witness :
    (export_images [((("ab").toList), [1]), ((("b").toList), [2])]
        (("imgs").toList) (("rel").toList) (("ab").toList) (("u0").toList)).2
      = [((("imgs/u0ab").toList), [1]), ((("imgs/u0b").toList), [2])]
    ∧ (("img.png").toList ≠ ([] : List Char))
    ∧ occursB (("img.png").toList) (("src=img.png").toList) = true
    ∧ occursB (("img.png").toList)
        ((export_images [((("img.png").toList), [1])] (("imgs").toList)
          (("rel").toList) (("src=img.png").toList) (("u0").toList)).1) = true := by
  refine ⟨?_, by decide, by decide, ?_⟩
  · rw [C1_export_images_amended.1]
    decide
  · exact (C1_export_images_amended.2 (("img.png").toList) [1] (("imgs").toList)
      (("rel").toList) (("src=img.png").toList) (("u0").toList)
      (by decide) (by decide)).2.2

/-- Claim C2, counterexample.  The claim states that `export_py` removes
every line containing `get_ipython()` in full, leaving no residue of those
lines.  On exporter output `x = get_ipython()\nprint(1)\n` the loop removes
only the span from the occurrence through the newline: the returned text is
`x = print(1)\n`, which still contains the residue `x = ` of the removed
line. -/
theorem C2_counterexample :
    export_py (("x = get_ipython()\nprint(1)\n").toList) none
        = some ⟨(("x = print(1)\n").toList), none⟩
    ∧ occursB (("x = ").toList) (("x = print(1)\n").toList) = true := by
  exact ⟨by decide, by decide⟩

/-- Claim C2, amended.  Each iteration removes only the span from the
occurrence of `get_ipython()` through the following newline (text on the
line before the occurrence remains), but whenever `export_py` returns (the
loop terminates), the returned script text contains zero occurrences of
`get_ipython()`. -/
theorem C2_export_py_amended (body : List Char) (dest : Option (List Char))
    (r : PyResult) (h : export_py body dest = some r) :
    occursB gip r.body = false := by
  cases hs : stripFuel gip (body.length + 1) body with
  | none =>
    simp only [export_py, hs] at h
    exact Option.noConfusion h
  | some b =>
    simp only [export_py, hs, Option.some_inj] at h
    subst h
    have hb : occursB gip b = false :=
      occursB_false_of_findSub_none (stripFuel_some_none hs)
    by_cases hp : occursB plt b = true
    · simp only [hp, if_true]
      by_cases hcon : occursB gip (b ++ pltShow) = true
      · exfalso
        rw [show pltShow = '\n' :: (("plt.show()\n").toList) from rfl] at hcon
        rcases occursB_split_char b (("plt.show()\n").toList)
            gip_no_newline hcon with h1 | h2
        · rw [h1] at hb; cases hb
        · exact absurd h2 (by decide)
      · exact Bool.eq_false_iff.mpr hcon
    · simp only [Bool.not_eq_true] at hp
      simp only [hp, Bool.false_eq_true, if_false]
      exact hb

/-- Claim C2, amended claim witness. -/
theorem C2_witness :
    export_py (("get_ipython().magic(1)\nprint(2)\n").toList) none
        = some ⟨(("print(2)\n").toList), none⟩
    ∧ occursB gip (("print(2)\n").toList) = false := by
  have h : export_py (("get_ipython().magic(1)\nprint(2)\n").toList) none
      = some ⟨(("print(2)\n").toList), none⟩ := by decide
  exact ⟨h, C2_export_py_amended _ _ _ h⟩

/-- Claim C3.  `check_ipy_version` does return `False` (and not an error)
when `import IPython` fails, and `has_ipynb_widgets` does return `False`
when IPython is present but the widget packages are not importable (both
for the old-layout and the new-layout import branch).  But when IPython
itself cannot be imported, `has_ipynb_widgets` evaluates the module-level
global `IPython`, which the failed module-level import left unbound, so it
raises `NameError` - which `except ImportError` does not catch - instead of
returning `False`.  The claim (and the code's own docstring, which promises
a boolean) is the intent; the uncaught `NameError` is the code bug. -/
theorem C3_probes_eval :
    check_ipy_version ⟨none, false, false, false, false⟩ [4, 0]
        = Except.ok false
    ∧ has_ipynb_widgets ⟨none, false, false, false, false⟩
        = Except.error PyError.nameError
    ∧ has_ipynb_widgets ⟨some [4, 0], false, false, false, false⟩
        = Except.ok false
    ∧ has_ipynb_widgets ⟨some [3, 2], false, false, true, true⟩
        = Except.ok false
    ∧ check_ipy_version ⟨some [2, 1], true, true, true, true⟩ [4, 0]
        = Except.ok false
    ∧ check_ipy_version ⟨some [4, 1], true, true, true, true⟩ [4, 0]
        = Except.ok true := by
  exact ⟨rfl, rfl, rfl, rfl, rfl, rfl⟩

/-- Claim C4.  `export_py` appends the trailing plot-display statement
`\nplt.show()\n` exactly once if the text remaining after the stripping
step contains `plt`, and appends nothing otherwise. -/
theorem C4_export_py_plt (body : List Char) (dest : Option (List Char))
    (r : PyResult) (stripped : List Char)
    (h : export_py body dest = some r)
    (hs : stripFuel gip (body.length + 1) body = some stripped) :
    (occursB plt stripped = true → r.body = stripped ++ pltShow)
    ∧ (occursB plt stripped = false → r.body = stripped) := by
  simp only [export_py, hs, Option.some_inj] at h
  subst h
  constructor
  · intro hp
    simp only [hp, if_true]
  · intro hp
    simp only [hp, Bool.false_eq_true, if_false]

/-- Claim C4 witness: a script with two `plt` references gets exactly one
trailing `plt.show()` appended. -/
theorem C4_witness :
    occursB plt (("plt.plot(x)\nplt.draw()\n").toList) = true
    ∧ PyResult.body ⟨(("plt.plot(x)\nplt.draw()\n\nplt.show()\n").toList), none⟩
        = (("plt.plot(x)\nplt.draw()\n").toList) ++ pltShow := by
  have h : export_py (("plt.plot(x)\nplt.draw()\n").toList) none
      = some ⟨(("plt.plot(x)\nplt.draw()\n\nplt.show()\n").toList), none⟩ := by
    decide
  have hs : stripFuel gip ((("plt.plot(x)\nplt.draw()\n").toList).length + 1)
      (("plt.plot(x)\nplt.draw()\n").toList)
        = some (("plt.plot(x)\nplt.draw()\n").toList) := by decide
  exact ⟨by decide,
    (C4_export_py_plt (("plt.plot(x)\nplt.draw()\n").toList) none
      ⟨(("plt.plot(x)\nplt.draw()\n\nplt.show()\n").toList), none⟩
      (("plt.plot(x)\nplt.draw()\n").toList) h hs).1 (by decide)⟩

/-- Claim C5.  `iter_cells` yields exactly the cells whose `cell_type`
equals the filter, in document order: for `nbformat <= 3` the candidates are
the concatenation of all worksheets' cells in worksheet order, otherwise the
document's top-level cell sequence. -/
theorem C5_iter_cells_spec (nb : Notebook) (ct : List Char) :
    iter_cells nb ct =
      (if nb.nbformat ≤ 3 then (nb.worksheets.map Worksheet.cells).flatten
       else nb.cells).filter (fun c => c.cell_type == ct) := by
  simp only [iter_cells]
  by_cases h : nb.nbformat ≤ 3
  · simp only [if_pos h, worksheets_foldl_eq_flatten, List.nil_append]
  · simp only [if_neg h]

/-- Claim C6.  When the rendered exporter output contains none of the
markers `<head>`, `</head>`, `<body>`, `</body>`, the head extraction
`output.split('<head>', 1)[1]` indexes a one-element list and `export_html`
raises an `IndexError` (an ordinary text-processing error) instead of
recovering or returning a result. -/
theorem C6_export_html_markers (output : List Char)
    (outputs : List (List Char × List Nat)) (dest : Option (List Char))
    (dimg drel : Option (List Char)) (u : List Char)
    (h1 : occursB headTag output = false)
    (_h2 : occursB headCloseTag output = false)
    (_h3 : occursB bodyTag output = false)
    (_h4 : occursB bodyCloseTag output = false) :
    export_html output outputs dest dimg drel u
      = Except.error PyError.indexError := by
  have hf : findSub headTag output = none := by
    cases hfs : findSub headTag output with
    | none => rfl
    | some i => rw [occursB, hfs] at h1; cases h1
  have hp1 : part1 headTag output = Except.error PyError.indexError := by
    simp only [part1, splitOnce, hf]
  simp only [export_html, hp1]

/-- Claim C6 witness: an output with no markers at all. -/
theorem C6_witness :
    occursB headTag (("hello").toList) = false
    ∧ occursB headCloseTag (("hello").toList) = false
    ∧ occursB bodyTag (("hello").toList) = false
    ∧ occursB bodyCloseTag (("hello").toList) = false
    ∧ export_html (("hello").toList) [] none none none []
        = Except.error PyError.indexError := by
  exact ⟨by decide, by decide, by decide, by decide,
    C6_export_html_markers (("hello").toList) [] none none none []
      (by decide) (by decide) (by decide) (by decide)⟩

/-- Claim C7.  `export_py` and `export_html` return the resulting text (it
is the `body`/`html` component of every successful result, by type), and
the destination write they perform when a destination path is supplied is
exactly that returned text; no write happens without a destination path. -/
theorem C7_returns_and_writes :
    (∀ (body p : List Char) (r : PyResult),
        export_py body (some p) = some r → r.destWrite = some (p, r.body))
    ∧ (∀ (body : List Char) (r : PyResult),
        export_py body none = some r → r.destWrite = none)
    ∧ (∀ (output : List Char) (outputs : List (List Char × List Nat))
        (dimg drel : Option (List Char)) (u p : List Char) (r : HtmlResult),
        export_html output outputs (some p) dimg drel u = Except.ok r →
          r.destWrite = some (p, r.html))
    ∧ (∀ (output : List Char) (outputs : List (List Char × List Nat))
        (dimg drel : Option (List Char)) (u : List Char) (r : HtmlResult),
        export_html output outputs none dimg drel u = Except.ok r →
          r.destWrite = none) := by
  refine ⟨?_, ?_, ?_, ?_⟩
  · intro body p r h
    cases hs : stripFuel gip (body.length + 1) body with
    | none =>
      simp only [export_py, hs] at h
      exact Option.noConfusion h
    | some b =>
      simp only [export_py, hs, Option.some_inj] at h
      subst h
      rfl
  · intro body r h
    cases hs : stripFuel gip (body.length + 1) body with
    | none =>
      simp only [export_py, hs] at h
      exact Option.noConfusion h
    | some b =>
      simp only [export_py, hs, Option.some_inj] at h
      subst h
      rfl
  · intro output outputs dimg drel u p r h
    cases hp1 : part1 headTag output with
    | error e =>
      simp only [export_html, hp1] at h
      exact Except.noConfusion h
    | ok afterHead =>
      cases hp2 : part1 bodyTag output with
      | error e =>
        simp only [export_html, hp1, hp2] at h
        exact Except.noConfusion h
      | ok afterBody =>
        simp only [export_html, hp1, hp2, Except.ok.injEq] at h
        subst h
        rfl
  · intro output outputs dimg drel u r h
    cases hp1 : part1 headTag output with
    | error e =>
      simp only [export_html, hp1] at h
      exact Except.noConfusion h
    | ok afterHead =>
      cases hp2 : part1 bodyTag output with
      | error e =>
        simp only [export_html, hp1, hp2] at h
        exact Except.noConfusion h
      | ok afterBody =>
        simp only [export_html, hp1, hp2, Except.ok.injEq] at h
        subst h
        rfl

/-- Claim C7 witness, at a concrete script export and a concrete HTML
export with destination paths. -/
theorem C7_witness :
    export_py (("print(1)\n").toList) (some (("out.py").toList))
        = some ⟨(("print(1)\n").toList),
                some ((("out.py").toList), (("print(1)\n").toList))⟩
    ∧ PyResult.destWrite
        ⟨(("print(1)\n").toList),
         some ((("out.py").toList), (("print(1)\n").toList))⟩
        = some ((("out.py").toList),
            PyResult.body ⟨(("print(1)\n").toList),
              some ((("out.py").toList), (("print(1)\n").toList))⟩)
    ∧ export_html (("<head>h</head><body>b</body>").toList) []
        (some (("o.html").toList)) none none []
        = Except.ok ⟨(("<div class=\"ipynotebook\">\nh\nb\n</div>").toList), [],
            some ((("o.html").toList),
              (("<div class=\"ipynotebook\">\nh\nb\n</div>").toList))⟩
    ∧ HtmlResult.destWrite
        ⟨(("<div class=\"ipynotebook\">\nh\nb\n</div>").toList), [],
         some ((("o.html").toList),
           (("<div class=\"ipynotebook\">\nh\nb\n</div>").toList))⟩
        = some ((("o.html").toList),
            HtmlResult.html
              ⟨(("<div class=\"ipynotebook\">\nh\nb\n</div>").toList), [],
               some ((("o.html").toList),
                 (("<div class=\"ipynotebook\">\nh\nb\n</div>").toList))⟩) := by
  have h1 : export_py (("print(1)\n").toList) (some (("out.py").toList))
      = some ⟨(("print(1)\n").toList),
              some ((("out.py").toList), (("print(1)\n").toList))⟩ := by decide
  have h2 : export_html (("<head>h</head><body>b</body>").toList) []
      (some (("o.html").toList)) none none []
      = Except.ok ⟨(("<div class=\"ipynotebook\">\nh\nb\n</div>").toList), [],
          some ((("o.html").toList),
            (("<div class=\"ipynotebook\">\nh\nb\n</div>").toList))⟩ := by rfl
  exact ⟨h1, C7_returns_and_writes.1 _ _ _ h1, h2,
    C7_returns_and_writes.2.2.1 _ _ _ _ _ _ _ h2⟩

/-- Claim C8, counterexample.  For `get_ipyget_ipython()\nthon()` every
occurrence of `get_ipython()` is followed by a newline (checked over all
positions), yet one loop iteration splices the text into `get_ipython()` -
a state that still contains the pattern and is a fixed point of the loop
body, so the loop never terminates.  And for
`get_ipyget_ipython()\nthon()\n` (one occurrence, followed by a newline)
one iteration per occurrence does not suffice: the loop needs two
iterations, not one. -/
theorem C8_counterexample :
    ((List.range ((("get_ipyget_ipython()\nthon()").toList).length)).all
      (fun j => !(prefixB gip ((("get_ipyget_ipython()\nthon()").toList).drop j))
        || ((("get_ipyget_ipython()\nthon()").toList).drop j).contains '\n')
      = true)
    ∧ stripStep gip (stripStep gip (("get_ipyget_ipython()\nthon()").toList))
        = stripStep gip (("get_ipyget_ipython()\nthon()").toList)
    ∧ occursB gip (stripStep gip (("get_ipyget_ipython()\nthon()").toList))
        = true
    ∧ ((List.range ((("get_ipyget_ipython()\nthon()\n").toList).length)).countP
        (fun j => prefixB gip ((("get_ipyget_ipython()\nthon()\n").toList).drop j))
        = 1)
    ∧ stripFuel gip 1 (("get_ipyget_ipython()\nthon()\n").toList) = none
    ∧ (stripFuel gip 2 (("get_ipyget_ipython()\nthon()\n").toList)).isSome
        = true := by
  exact ⟨by decide, by decide, by decide, by decide, by decide, by decide⟩

/-- Claim C8, amended.  The stripping loop terminates (within `length` many
iterations) for every exporter output that ends with a newline - removals
can splice new occurrences, so the iteration count can exceed the number of
occurrences in the original text, but each removal shortens the text and
preserves the trailing newline.  Conversely, if some occurrence of
`get_ipython()` has no newline anywhere after its start, the loop never
terminates, whatever the fuel (so a following newline for every occurrence
remains necessary). -/
theorem C8_strip_termination :
    (∀ (b : List Char),
        (stripFuel gip ((b ++ ['\n']).length) (b ++ ['\n'])).isSome = true)
    ∧ (∀ (body : List Char) (j : Nat),
        prefixB gip (body.drop j) = true → '\n' ∉ body.drop j →
        ∀ (n : Nat), stripFuel gip n body = none) := by
  constructor
  · intro b
    exact stripFuel_terminates_aux ((b ++ ['\n']).length) (b ++ ['\n'])
      le_rfl (Or.inl ⟨b, rfl⟩)
  · intro body j h1 h2 n
    exact stripFuel_stuck n body j h1 h2

/-- Claim C8, amended claim witness: a newline-terminated text is stripped
successfully, and `get_ipython()` alone (no trailing newline) loops
forever. -/
theorem C8_witness :
    (stripFuel gip ((("x = get_ipython()\n").toList).length)
        (("x = get_ipython()\n").toList)).isSome = true
    ∧ prefixB gip ((("get_ipython()").toList).drop 0) = true
    ∧ '\n' ∉ (("get_ipython()").toList).drop 0
    ∧ stripFuel gip 5 (("get_ipython()").toList) = none := by
  refine ⟨?_, by decide, by decide, ?_⟩
  · have heq : ("x = get_ipython()").toList ++ ['\n']
        = ("x = get_ipython()\n").toList := by decide
    rw [← heq]
    exact C8_strip_termination.1 (("x = get_ipython()").toList)
  · exact C8_strip_termination.2 (("get_ipython()").toList) 0
      (by decide) (by decide) 5

/-- Claim C9, counterexample.  The claim states that the characters on a
line preceding an occurrence always remain in the returned script text.  In
`abget_ipyget_ipython()\nthon()\n` the leftmost occurrence starts at index
9 and the text before it on its line is `abget_ipy`; removing the span
through the newline splices a new occurrence whose removal consumes part of
that text, and `export_py` returns `ab`, which no longer contains
`abget_ipy`. -/
theorem C9_counterexample :
    findSub gip (("abget_ipyget_ipython()\nthon()\n").toList) = some 9
    ∧ (("abget_ipyget_ipython()\nthon()\n").toList).take 9
        = ("abget_ipy").toList
    ∧ export_py (("abget_ipyget_ipython()\nthon()\n").toList) none
        = some ⟨("ab").toList, none⟩
    ∧ occursB (("abget_ipy").toList) (("ab").toList) = false := by
  exact ⟨by decide, by decide, by decide, by decide⟩

/-- Claim C9, amended.  A single iteration of the stripping loop on a text
whose leftmost occurrence of `get_ipython()` is preceded by `pre` on its
line removes exactly the span from the occurrence through the following
newline: the characters before the occurrence survive that step (later
iterations may still consume them when the removal splices a new
occurrence). -/
theorem C9_stripStep_span (pre mid rest : List Char)
    (h1 : findSub gip (pre ++ (gip ++ (mid ++ '\n' :: rest))) = some pre.length)
    (h2 : '\n' ∉ mid) :
    stripStep gip (pre ++ (gip ++ (mid ++ '\n' :: rest))) = pre ++ rest := by
  have hnotin : '\n' ∉ gip ++ mid := by
    intro hm
    rcases List.mem_append.mp hm with h | h
    exacts [gip_no_newline h, h2 h]
  have hdrop : (pre ++ (gip ++ (mid ++ '\n' :: rest))).drop pre.length
      = gip ++ (mid ++ '\n' :: rest) := List.drop_left _ _
  have hXeq : gip ++ (mid ++ '\n' :: rest) = (gip ++ mid) ++ '\n' :: rest := by
    rw [List.append_assoc]
  have hfind : findSub ['\n'] ((gip ++ mid) ++ '\n' :: rest)
      = some ((gip ++ mid).length) :=
    findSub_singleton_append '\n' (gip ++ mid) rest hnotin
  have hfc : findCharFrom '\n' (pre ++ (gip ++ (mid ++ '\n' :: rest))) pre.length
      = some ((gip ++ mid).length + pre.length) := by
    rw [findCharFrom, hdrop, hXeq, hfind, Option.map_some']
  have hstep : stripStep gip (pre ++ (gip ++ (mid ++ '\n' :: rest)))
      = (pre ++ (gip ++ (mid ++ '\n' :: rest))).take pre.length
        ++ (pre ++ (gip ++ (mid ++ '\n' :: rest))).drop
            ((gip ++ mid).length + pre.length + 1) := by
    simp only [stripStep, h1, hfc]
  rw [hstep]
  have htake : (pre ++ (gip ++ (mid ++ '\n' :: rest))).take pre.length = pre :=
    List.take_left _ _
  have hbodyeq : pre ++ (gip ++ (mid ++ '\n' :: rest))
      = (pre ++ (gip ++ mid)) ++ '\n' :: rest := by
    simp [List.append_assoc]
  have hidx : (gip ++ mid).length + pre.length + 1
      = (pre ++ (gip ++ mid)).length + 1 := by
    simp only [List.length_append]
    omega
  have hdrop2 : (pre ++ (gip ++ (mid ++ '\n' :: rest))).drop
      ((gip ++ mid).length + pre.length + 1) = rest := by
    rw [hbodyeq, hidx, show (pre ++ (gip ++ mid)).length + 1
        = (pre ++ (gip ++ mid)).length + 1 from rfl, drop_append_add]
    rfl
  rw [htake, hdrop2]

/-- Claim C9, amended claim witness. -/
theorem C9_witness :
    findSub gip ((("x = ").toList) ++ (gip ++ (((".magic(1)").toList)
        ++ '\n' :: (("print(2)").toList)))) = some ((("x = ").toList).length)
    ∧ '\n' ∉ ((".magic(1)").toList)
    ∧ stripStep gip ((("x = ").toList) ++ (gip ++ (((".magic(1)").toList)
        ++ '\n' :: (("print(2)").toList))))
      = (("x = ").toList) ++ (("print(2)").toList) := by
  refine ⟨by decide, by decide, ?_⟩
  exact C9_stripStep_span (("x = ").toList) ((".magic(1)").toList)
    (("print(2)").toList) (by decide) (by decide)

/-- Claim C10, counterexample.  The claim states that the HTML text is
changed only at positions where some identifier occurs.  On HTML text `ay`
with identifiers `a` then `0ay`, `0ay` occurs nowhere in the original text
and `a` occurs only at position 0, so only the leading `a` should change
and the result should be the replacement of `a` followed by the untouched
`y`, i.e. `rel/u0ay`.  Instead the first replacement splices in `rel/u0a`,
the second replacement matches `0ay` inside the spliced text, and the
returned text is `rel/urel/u00ay`: the `y` position, where no identifier
occurs, was rewritten. -/
theorem C10_counterexample :
    occursB (("0ay").toList) (("ay").toList) = false
    ∧ findSub (("a").toList) (("ay").toList) = some 0
    ∧ (export_images [((("a").toList), [1]), ((("0ay").toList), [2])]
        (("imgs").toList) (("rel").toList) (("ay").toList) (("u0").toList)).1
      = ("rel/urel/u00ay").toList
    ∧ ("rel/urel/u00ay").toList ≠ (("rel/u0a").toList ++ (("y").toList)) := by
  exact ⟨by decide, by decide, by decide, by decide⟩

/-- Claim C10, amended.  `export_images` writes one file for every entry of
the `outputs` mapping - named by the shared identifier prefixed to the
entry's identifier, with the entry's payload - whether or not the
identifier occurs in the HTML text; and when no identifier occurs in the
HTML text at all, the text is returned unchanged.  (When identifiers do
occur, a later resource's replacement can also match text spliced in by an
earlier replacement, changing positions of the original text where no
identifier occurred - see the counterexample.) -/
theorem C10_export_images_files (outputs : List (List Char × List Nat))
    (d rd html u : List Char) :
    (export_images outputs d rd html u).2
        = outputs.map (fun e => (osPathJoin d (u ++ e.1), e.2))
    ∧ ((∀ e ∈ outputs, occursB e.1 html = false) →
        (export_images outputs d rd html u).1 = html) := by
  constructor
  · have := export_images_foldl_files d rd u outputs html []
    rw [List.nil_append] at this
    exact this
  · intro hno
    exact export_images_foldl_html d rd u outputs html [] hno

/-- Claim C10 witness: an identifier absent from the HTML text still gets
its file written, and the text is unchanged. -/
theorem C10_witness :
    (export_images [((("a.png").toList), [7])] (("imgs").toList)
        (("rel").toList) (("nothing here").toList) (("u0").toList)).2
      = [((("imgs/u0a.png").toList), [7])]
    ∧ (export_images [((("a.png").toList), [7])] (("imgs").toList)
        (("rel").toList) (("nothing here").toList) (("u0").toList)).1
      = ("nothing here").toList := by
  have hno : ∀ e ∈ ([((("a.png").toList), [7])] : List (List Char × List Nat)),
      occursB e.1 (("nothing here").toList) = false := by decide
  constructor
  · rw [(C10_export_images_files [((("a.png").toList), [7])] (("imgs").toList)
      (("rel").toList) (("nothing here").toList) (("u0").toList)).1]
    decide
  · exact (C10_export_images_files [((("a.png").toList), [7])] (("imgs").toList)
      (("rel").toList) (("nothing here").toList) (("u0").toList)).2 hno
